import Mathlib

/-
Verification of the audio event module (frigate/events/audio.py).

The module is embedded shallowly:
* scores and timestamps are modelled as rationals (the source compares and
  adds IEEE doubles; every claim here is order-theoretic or exact, never
  about rounding of the binary representation),
* the per-camera dictionary `self.detections` (which the constructor makes
  the very same object as the shared `feature_metrics` dictionary) is an
  association list from string keys to Python values, where a value is
  either `None` or a dictionary holding any of the keys
  `id`, `label`, `last_detection`, `audio_enabled`,
* the two HTTP calls of the event store are observed as an emitted trace of
  `ApiCall`s; the result of the create call is an input (`Option String`,
  `none` for a non-200 status); the result of the end call is not an input
  at all because the source never reads it,
* a Python `KeyError` (reading a missing dictionary key with `[...]`)
  aborts the computation: fallible loops return `Option`.
-/

set_option maxHeartbeats 1000000

namespace Frigate

/-! ## AudioTfl: the classifier (lines 81-137) -/

/-- Row of the fixed `(20, 6)` output array built by `_detect_raw`:
`[class_id, score, box0, box1, box2, box3]`. -/
structure DetRow where
  classId : ℚ
  score : ℚ
  b0 : ℚ
  b1 : ℚ
  b2 : ℚ
  b3 : ℚ
deriving DecidableEq, Repr

/-- Value of a row of `np.zeros((20, 6))` that the fill loop never touched. -/
def zeroRow : DetRow := ⟨0, 0, 0, 0, 0, 0⟩

/-- Descending-score order on `(index, score)` pairs, the order produced by
`np.argsort(-res[class_ids])`. -/
def scoreGE (a b : Nat × ℚ) : Prop := b.2 ≤ a.2

instance : DecidableRel scoreGE := fun a b => inferInstanceAs (Decidable (b.2 ≤ a.2))

instance : IsTotal (Nat × ℚ) scoreGE := ⟨fun a b => le_total b.2 a.2⟩

instance : IsTrans (Nat × ℚ) scoreGE := ⟨fun _ _ _ h1 h2 => le_trans h2 h1⟩

namespace AudioTfl

/-- Model of `AudioTfl._detect_raw` (lines 95-121), as a function of the raw
score vector `res` produced by the interpreter.  The source selects the 20
highest-scoring indices with `argpartition`, orders them by descending score
with `argsort`, keeps the strictly positive ones, and copies those with score
at least `0.4` into a zero-initialised `(20, 6)` array, each row being
`[class_id, score, -1, -1, -1, -1]`.  Sorting the whole enumerated vector and
taking 20 is the same selection (tie-breaking between equal scores is
unspecified in the source, and no claim depends on which index wins a tie).
`rawRanked` is the ordered 20-candidate selection, `rawKept` the part the
copy loop fills, `detect_raw` the returned array. -/
def rawRanked (res : List ℚ) : List (Nat × ℚ) :=
  (List.insertionSort scoreGE res.enum).take 20

/-- Pairs that survive both the positivity filter (`res > 0`) and the
`scores[i] < 0.4` early break of the copy loop. -/
def rawKept (res : List ℚ) : List (Nat × ℚ) :=
  ((rawRanked res).filter (fun p => decide (0 < p.2))).takeWhile
    (fun p => decide (mkRat 2 5 ≤ p.2))

def detect_raw (res : List ℚ) : List DetRow :=
  (rawKept res).map (fun p => ⟨(p.1 : ℚ), p.2, -1, -1, -1, -1⟩) ++
    List.replicate (20 - (rawKept res).length) zeroRow

/-- Tuple `(labels[int(d[0])], float(d[1]), (d[2], d[3], d[4], d[5]))` that
`AudioTfl.detect` appends for a kept row `d`. -/
def mkDet (labels : Nat → String) (d : DetRow) : String × ℚ × (ℚ × ℚ × ℚ × ℚ) :=
  (labels (Int.toNat ⌊d.classId⌋), d.score, (d.b0, d.b1, d.b2, d.b3))

/-- Model of `AudioTfl.detect` (lines 123-137).  `stop` is the state of the
shared cancellation event, `labels` the loaded label vocabulary, `res` the
interpreter output for the given waveform.  The second component of the
result records whether inference (`_detect_raw`, hence `interpreter.invoke`)
ran at all.  The loop `for d in raw: if d[1] < threshold: break; append`
is a longest-satisfying-head cut, `takeWhile`. -/
def detect (stop : Bool) (labels : Nat → String) (res : List ℚ) (threshold : ℚ) :
    List (String × ℚ × (ℚ × ℚ × ℚ × ℚ)) × Bool :=
  if stop then ([], false)
  else
    (((detect_raw res).takeWhile (fun d => decide (threshold ≤ d.score))).map (mkDet labels),
      true)

end AudioTfl

/-! ## Window geometry (lines 154-155) -/

/-- Python 3 `round` on an exact value: round half to even. -/
def pyRound (x : ℚ) : ℤ :=
  let f := ⌊x⌋
  let frac := x - (f : ℚ)
  if frac < mkRat 1 2 then f
  else if mkRat 1 2 < frac then f + 1
  else if f % 2 = 0 then f else f + 1

namespace AudioEventMaintainer

/-- Sample count of one window, `int(round(AUDIO_DURATION * AUDIO_SAMPLE_RATE))`
(line 154), parameterised by the two constants (their values live in
frigate/const.py, outside the embedded file). -/
def shape (duration sampleRate : ℚ) : ℤ := pyRound (duration * sampleRate)

/-- Bytes read per cycle, `int(round(AUDIO_DURATION * AUDIO_SAMPLE_RATE * 2))`
(line 155). -/
def chunk_size (duration sampleRate : ℚ) : ℤ := pyRound (duration * sampleRate * 2)

end AudioEventMaintainer

/-! ## The shared dictionary -/

/-- Inner Python dictionary value stored in the shared map.  Each field is a
possibly-absent dictionary key.  A detection record (lines 195-199) has
`id`, `label` and `last_detection`; the per-camera entry of `feature_metrics`
has (at least) `audio_enabled`; absent keys are `none`. -/
structure Entry where
  id : Option String
  label : Option String
  last_detection : Option ℚ
  audio_enabled : Option Bool
deriving DecidableEq, Repr

/-- Python truthiness of an inner dictionary: a dict is falsy iff empty. -/
def Entry.truthy (e : Entry) : Bool :=
  e.id.isSome || e.label.isSome || e.last_detection.isSome || e.audio_enabled.isSome

/-- Per-camera `feature_metrics` entry carrying the runtime enable flag. -/
def metricsEntry (audio_enabled : Bool) : Entry := ⟨none, none, none, some audio_enabled⟩

/-- Detection record stored by `handle_detection` on a 200 create response:
`{"id": event_id, "label": label, "last_detection": now}` (lines 195-199). -/
def recordEntry (eid label : String) (t : ℚ) : Entry := ⟨some eid, some label, some t, none⟩

/-- Shared dictionary: string keys, values either `None` (`none`) or an inner
dictionary.  Insertion order is kept, as in a Python dict. -/
abbrev DMap : Type := List (String × Option Entry)

/-- Python `d.get(k)`: `none` when the key is absent or its value is `None`. -/
def dget (m : DMap) (k : String) : Option Entry :=
  (List.lookup k m).getD none

/-- Python `d[k] = v`: replace the value at an existing key in place, else
append the new key at the end. -/
def dset (m : DMap) (k : String) (v : Option Entry) : DMap :=
  if (List.lookup k m).isSome then
    m.map (fun p => if p.1 = k then (k, v) else p)
  else
    m ++ [(k, v)]

/-- Truthiness of `self.detections.get(label)` (line 183). -/
def truthyAt (m : DMap) (k : String) : Bool :=
  match dget m k with
  | some e => e.truthy
  | none => false

/-- Observable calls against the event-store HTTP API. -/
inductive ApiCall where
  | create (camera label : String)
  | endEvent (eventId : String) (endTime : ℚ)
deriving DecidableEq, Repr

/-! ## AudioEventMaintainer.handle_detection (lines 182-199) -/

namespace AudioEventMaintainer

/-- Model of `handle_detection`.  `cam` is `self.config.name`, `m` the shared
dictionary, `now` the sampled wall clock, `createResp` the outcome of the
create POST (`some eventId` when `status_code == 200`, `none` otherwise;
the POST itself is always emitted on this branch).  `score` is a parameter of
the source function that its body never uses.  Returns the updated dictionary
and the emitted calls. -/
def handle_detection (cam : String) (m : DMap) (label : String) (score : ℚ) (now : ℚ)
    (createResp : Option String) : DMap × List ApiCall :=
  let created : DMap × List ApiCall :=
    match createResp with
    | some eid => (dset m label (some (recordEntry eid label now)), [ApiCall.create cam label])
    | none => (m, [ApiCall.create cam label])
  match dget m label with
  | some e =>
    if e.truthy then
      (dset m label (some { e with last_detection := some now }), [])
    else created
  | none => created

/-! ## AudioEventMaintainer.expire_detections (lines 201-219) -/

/-- State of the expiry loop: the live dictionary, the end calls emitted so
far, and the values the `for detection in self.detections.values()` loop has
visited (the last component only instruments which entries the loop sees; it
changes nothing the source observes). -/
structure ExpireState where
  map : DMap
  calls : List ApiCall
  visited : List (Option Entry)
deriving DecidableEq, Repr

/-- Body of the expiry loop for the value at position `i` of the live
dictionary.  `none` models a `KeyError`: the guard passed but one of
`detection["last_detection"]`, `detection["id"]`, `detection["label"]`
is absent (unreachable for the record shapes the module itself stores). -/
def expireStep (mnh pc now : ℚ) (st : ExpireState) (i : Nat) : Option ExpireState :=
  match st.map[i]? with
  | none => some st
  | some (_, v) =>
    let seen := st.visited ++ [v]
    match v with
    | none => some { st with visited := seen }
    | some e =>
      if e.truthy then
        if mnh < now - (e.last_detection.getD now) then
          match e.last_detection, e.id, e.label with
          | some t, some eid, some lb =>
            some ⟨dset st.map lb none, st.calls ++ [ApiCall.endEvent eid (t + pc)], seen⟩
          | _, _, _ => none
        else some { st with visited := seen }
      else some { st with visited := seen }

/-- Model of `expire_detections`.  `mnh` is `self.config.audio.max_not_heard`,
`pc` is `self.config.record.events.post_capture`, `now` the sampled clock.
The loop walks the positions of the dictionary in order; a fired entry is
overwritten with `None` at its own `label` key (the source never deletes the
key), and the end PUT's response is never consulted. -/
def expire_detections (mnh pc : ℚ) (m : DMap) (now : ℚ) : Option ExpireState :=
  (List.range m.length).foldl
    (fun acc i => acc.bind (fun st => expireStep mnh pc now st i))
    (some ⟨m, [], []⟩)

/-! ## Reference forms used to state the expiry claims -/

/-- Guard of the expiry loop, written as a predicate of the stored value. -/
def isStale (mnh now : ℚ) (v : Option Entry) : Bool :=
  match v with
  | none => false
  | some e => e.truthy && decide (mnh < now - (e.last_detection.getD now))

/-- Dictionary after one expiry pass: every stale entry is overwritten with
`None` at its key, everything else is untouched. -/
def expMap (mnh now : ℚ) (m : DMap) : DMap :=
  m.map (fun p => if isStale mnh now p.2 then (p.1, none) else p)

/-- Trace of one expiry pass: exactly one end call per stale entry, in
dictionary order, each with `endTime = last_detection + post_capture`. -/
def expCalls (mnh pc now : ℚ) (m : DMap) : List ApiCall :=
  m.filterMap (fun p =>
    match p.2 with
    | some e =>
      if isStale mnh now p.2 then
        some (ApiCall.endEvent (e.id.getD "") ((e.last_detection.getD 0) + pc))
      else none
    | none => none)

/-! ## AudioEventMaintainer.detect_audio (lines 167-180) -/

/-- Model of `detect_audio`.  The interpreter is opaque, so the waveform is
represented directly by the score vector `res` it produces.  `respFor` gives
the create-call outcome for each label.  The first component is `none` when a
`KeyError` aborts the cycle (camera entry or its `audio_enabled` key absent,
or a malformed record during expiry); the second component records whether
inference ran. -/
def detect_audio (cam : String) (listen : List String) (mnh pc : ℚ)
    (stop : Bool) (labels : Nat → String) (m : DMap) (res : List ℚ) (now : ℚ)
    (respFor : String → Option String) : Option (DMap × List ApiCall) × Bool :=
  match List.lookup cam m with
  | some (some e) =>
    match e.audio_enabled with
    | some false => (some (m, []), false)
    | some true =>
      let dets := AudioTfl.detect stop labels res (mkRat 4 5)
      let handled := dets.1.foldl
        (fun (acc : DMap × List ApiCall) d =>
          if d.1 ∈ listen then
            let r := handle_detection cam acc.1 d.1 d.2.1 now (respFor d.1)
            (r.1, acc.2 ++ r.2)
          else acc)
        (m, [])
      match expire_detections mnh pc handled.1 now with
      | some ex => (some (ex.map, handled.2 ++ ex.calls), dets.2)
      | none => (none, dets.2)
    | none => (none, false)
  | _ => (none, false)

end AudioEventMaintainer

/-! ## Well-formed dictionaries and reachability -/

/-- Shape of a value the module itself ever stores at key `k`: `None`, a
per-camera metrics entry, or a detection record whose `label` field equals its
key. -/
def goodEntry (k : String) (v : Option Entry) : Bool :=
  match v with
  | none => true
  | some e =>
    (e.id.isNone && e.label.isNone && e.last_detection.isNone && e.audio_enabled.isSome) ||
    (e.id.isSome && decide (e.label = some k) && e.last_detection.isSome && e.audio_enabled.isNone)

/-- Well-formed shared dictionary: unique keys (it models a Python dict) and
every value of a shape the module stores. -/
def WF (m : DMap) : Prop :=
  (m.map Prod.fst).Nodup ∧ ∀ p ∈ m, goodEntry p.1 p.2 = true

instance (m : DMap) : Decidable (WF m) := by
  unfold WF; infer_instance

/-- Shared dictionary as one camera's maintainer first sees it: the
`feature_metrics` entry of that camera. -/
def initMap (cam : String) (b : Bool) : DMap := [(cam, some (metricsEntry b))]

/-- Dictionary states one camera's maintainer can reach from construction by
handling detections and running expiry passes. -/
inductive Reachable (cam : String) (b : Bool) (mnh pc : ℚ) : DMap → Prop
  | init : Reachable cam b mnh pc (initMap cam b)
  | handle (m : DMap) (label : String) (score now : ℚ) (resp : Option String) :
      Reachable cam b mnh pc m →
      Reachable cam b mnh pc (AudioEventMaintainer.handle_detection cam m label score now resp).1
  | expire (m : DMap) (now : ℚ) (st : AudioEventMaintainer.ExpireState) :
      Reachable cam b mnh pc m →
      AudioEventMaintainer.expire_detections mnh pc m now = some st →
      Reachable cam b mnh pc st.map

/-- Per-camera worker (`AudioEventMaintainer.__init__`, lines 141-165),
restricted to the state the claims are about. -/
structure Maintainer where
  camera : String
  listen : List String
  max_not_heard : ℚ
  post_capture : ℚ
  fmetrics : DMap

/-- Shared structure received at construction (line 150). -/
def Maintainer.feature_metrics (w : Maintainer) : DMap := w.fmetrics

/-- Line 151, `self.detections: dict[dict[str, any]] = feature_metrics`: the
detections attribute is the same object as `feature_metrics`. -/
def Maintainer.detections (w : Maintainer) : DMap := w.fmetrics

/-- Scenario harness for the debounce claim: one listened label detected at
each time in `ts`.  Every window runs `detect_audio`'s order of operations,
`handle_detection` then `expire_detections`; the leading expiry pass at the
same clock stands for the empty windows that drain between two detections
(their clock is at most the next detection time, which is the worst case for
staleness). -/
def seqStep (cam label eid : String) (mnh pc : ℚ)
    (acc : Option (DMap × List ApiCall)) (t : ℚ) : Option (DMap × List ApiCall) :=
  acc.bind (fun st =>
    (AudioEventMaintainer.expire_detections mnh pc st.1 t).bind (fun e1 =>
      let h := AudioEventMaintainer.handle_detection cam e1.map label 0 t (some eid)
      (AudioEventMaintainer.expire_detections mnh pc h.1 t).bind (fun e2 =>
        some (e2.map, st.2 ++ e1.calls ++ h.2 ++ e2.calls))))

def detectionSequence (cam label eid : String) (mnh pc : ℚ)
    (m0 : DMap) (ts : List ℚ) : Option (DMap × List ApiCall) :=
  ts.foldl (seqStep cam label eid mnh pc) (some (m0, []))

/-! ## Concrete inputs used by witnesses and counterexamples -/

/-- Score vector with one confident class and twenty silent ones. -/
def exRes : List ℚ := mkRat 9 10 :: List.replicate 20 0

/-- Score vector matching the spec scenario `[0.95, 0.82, 0.81, 0.3, 0, ...]`. -/
def exRes2 : List ℚ :=
  mkRat 95 100 :: mkRat 82 100 :: mkRat 81 100 :: mkRat 3 10 :: List.replicate 17 0

/-- Label vocabulary stub for witnesses. -/
def exLabels : Nat → String := fun _ => "bark"

/-- Dictionary with the camera metrics entry, one stale record and one fresh
record (clock 100, silence timeout 30). -/
def exM : DMap :=
  [("front", some (metricsEntry true)),
   ("bark", some (recordEntry "e1" "bark" 0)),
   ("speech", some (recordEntry "e2" "speech" 90))]

/-- Worker used by witnesses. -/
def wEx : Maintainer := ⟨"front", ["bark"], 30, 5, initMap "front" true⟩

/-- Disabled camera with a long-stale record: processing is off, so the record
must survive the cycle. -/
def exM10 : DMap :=
  [("front", some (metricsEntry false)),
   ("bark", some (recordEntry "e1" "bark" 0))]


/-! ## General list lemmas -/

/-- Index right after a `takeWhile` cut, when one exists, fails the predicate. -/
theorem takeWhile_getElem_false {α : Type} (p : α → Bool) :
    ∀ l : List α, (l.takeWhile p).length < l.length →
      ∃ a, l[(l.takeWhile p).length]? = some a ∧ p a = false := by
  intro l
  induction l with
  | nil => intro h; simp at h
  | cons a l ih =>
    intro h
    by_cases hp : p a = true
    · rw [List.takeWhile_cons, if_pos hp] at h ⊢
      simpa using ih (by simpa using h)
    · rw [List.takeWhile_cons, if_neg hp]
      exact ⟨a, by simp, by simpa using hp⟩

/-- Lists cut by `takeWhile` are initial segments. -/
theorem takeWhile_eq_take {α : Type} (p : α → Bool) :
    ∀ l : List α, l.takeWhile p = l.take (l.takeWhile p).length := by
  intro l
  induction l with
  | nil => rfl
  | cons a l ih =>
    by_cases hp : p a = true
    · rw [List.takeWhile_cons, if_pos hp]
      simpa using ih
    · rw [List.takeWhile_cons, if_neg hp]
      rfl

/-! ## C1: the raw ranking stage -/

/-- C1 (counterexample): the raw ranking stage does return entries with a
non-positive score.  `_detect_raw` fills a zero-initialised `(20, 6)` array,
so whenever fewer than 20 classes clear the internal `0.4` floor the returned
array still has 20 rows and the unfilled rows carry score exactly `0`.  On a
vector with a single confident class, a returned entry has score `≤ 0`. -/
theorem detect_raw_nonpositive_entry :
    ∃ r ∈ AudioTfl.detect_raw exRes, r.score ≤ 0 := by decide

/-- C1 (amended): for every raw model score vector, the array returned by
`_detect_raw` has exactly 20 entries (hence at most 20), is sorted in
non-increasing order of score, and contains no entry with a *negative* score:
every entry either is an untouched zero row (score exactly `0`) or was filled
by the copy loop and then has score at least `0.4`, hence positive. -/
theorem detect_raw_ranking (res : List ℚ) :
    (AudioTfl.detect_raw res).length = 20 ∧
    (∀ r ∈ AudioTfl.detect_raw res, 0 ≤ r.score ∧ (r.score = 0 ∨ mkRat 2 5 ≤ r.score)) ∧
    List.Pairwise (fun a b : DetRow => b.score ≤ a.score) (AudioTfl.detect_raw res) := by
  have hforty : (0 : ℚ) ≤ mkRat 2 5 := by norm_num [mkRat, Rat.normalize]
  unfold AudioTfl.detect_raw
  have hmemfill : ∀ p ∈ AudioTfl.rawKept res, mkRat 2 5 ≤ p.2 := by
    intro p hp
    have := List.mem_takeWhile_imp hp
    simpa using this
  have hlen : (AudioTfl.rawKept res).length ≤ 20 := by
    have h1 : (AudioTfl.rawKept res).Sublist
        ((AudioTfl.rawRanked res).filter (fun p => decide (0 < p.2))) :=
      List.takeWhile_sublist _
    have h2 : ((AudioTfl.rawRanked res).filter (fun p => decide (0 < p.2))).Sublist
        (AudioTfl.rawRanked res) := List.filter_sublist _
    have h3 := (h1.trans h2).length_le
    have h4 : (AudioTfl.rawRanked res).length ≤ 20 := by
      rw [AudioTfl.rawRanked, List.length_take]
      exact min_le_left _ _
    exact le_trans h3 h4
  refine ⟨?_, ?_, ?_⟩
  · rw [List.length_append, List.length_map, List.length_replicate]
    omega
  · intro r hr
    rcases List.mem_append.mp hr with hr | hr
    · rcases List.mem_map.mp hr with ⟨p, hp, rfl⟩
      have := hmemfill p hp
      exact ⟨le_trans hforty this, Or.inr this⟩
    · have := List.eq_of_mem_replicate hr
      subst this
      exact ⟨le_refl _, Or.inl rfl⟩
  · rw [List.pairwise_append]
    refine ⟨?_, ?_, ?_⟩
    · have hsorted : List.Pairwise scoreGE (AudioTfl.rawKept res) := by
        have h0 : List.Pairwise scoreGE (List.insertionSort scoreGE res.enum) :=
          List.sorted_insertionSort scoreGE res.enum
        have h1 : (AudioTfl.rawKept res).Sublist (List.insertionSort scoreGE res.enum) :=
          List.Sublist.trans (List.takeWhile_sublist _)
            (List.Sublist.trans (List.filter_sublist _) (List.take_sublist _ _))
        exact List.Pairwise.sublist h1 h0
      rw [List.pairwise_map]
      exact hsorted
    · rw [List.pairwise_replicate]
      exact Or.inr (le_refl _)
    · intro a ha b hb
      rcases List.mem_map.mp ha with ⟨p, hp, rfl⟩
      have hb0 := List.eq_of_mem_replicate hb
      subst hb0
      exact le_trans hforty (hmemfill p hp)


/-! ## C2 and C8: the public detect -/

/-- Mapped `takeWhile` cuts are initial segments of the mapped list. -/
theorem map_takeWhile_eq_take {α β : Type} (p : α → Bool) (f : α → β) (l : List α) :
    (l.takeWhile p).map f = (l.map f).take ((l.takeWhile p).map f).length := by
  rw [List.length_map]
  conv_lhs => rw [takeWhile_eq_take p l]
  rw [List.map_take]

/-- C2: with the cancellation signal clear, `detect`'s output is exactly the
maximal head of the raw ranking stage's array cut at the first entry whose
score is below the caller threshold: (1) it is an initial segment of the raw
array mapped through the label vocabulary, (2) every returned score meets the
threshold, (3) the first raw entry past the cut, whenever one exists, is
below the threshold (so nothing at or after the first sub-threshold entry
appears, even if a later raw entry's score exceeded the threshold), and
(4) if the threshold exceeds every raw score the result is empty. -/
theorem detect_threshold_cut (labels : Nat → String) (res : List ℚ) (θ : ℚ) :
    (AudioTfl.detect false labels res θ).1 =
      ((AudioTfl.detect_raw res).map (AudioTfl.mkDet labels)).take
        ((AudioTfl.detect false labels res θ).1).length ∧
    (∀ d ∈ (AudioTfl.detect false labels res θ).1, θ ≤ d.2.1) ∧
    (∀ a : DetRow,
      (AudioTfl.detect_raw res)[((AudioTfl.detect false labels res θ).1).length]? = some a →
      a.score < θ) ∧
    ((∀ r ∈ AudioTfl.detect_raw res, r.score < θ) →
      (AudioTfl.detect false labels res θ).1 = []) := by
  have hout : (AudioTfl.detect false labels res θ).1 =
      ((AudioTfl.detect_raw res).takeWhile (fun d => decide (θ ≤ d.score))).map
        (AudioTfl.mkDet labels) := rfl
  have hlen : ((AudioTfl.detect false labels res θ).1).length =
      ((AudioTfl.detect_raw res).takeWhile (fun d => decide (θ ≤ d.score))).length := by
    rw [hout, List.length_map]
  refine ⟨?_, ?_, ?_, ?_⟩
  · rw [hout]
    exact map_takeWhile_eq_take _ _ _
  · intro d hd
    rw [hout] at hd
    rcases List.mem_map.mp hd with ⟨r, hr, rfl⟩
    have := List.mem_takeWhile_imp hr
    simpa [AudioTfl.mkDet] using this
  · intro a hA
    rw [hlen] at hA
    obtain ⟨hlt, _⟩ := List.getElem?_eq_some.mp hA
    obtain ⟨b, hb, hpb⟩ :=
      takeWhile_getElem_false (fun d => decide (θ ≤ d.score)) (AudioTfl.detect_raw res) hlt
    have hab : a = b := Option.some.inj (hA.symm.trans hb)
    subst hab
    simpa using hpb
  · intro hall
    rw [hout]
    rcases hraw : AudioTfl.detect_raw res with _ | ⟨r, rest⟩
    · simp
    · have : r.score < θ := hall r (by rw [hraw]; exact List.mem_cons_self r rest)
      rw [List.takeWhile_cons, if_neg (by simpa using not_le.mpr this)]
      simp

/-- C8: if the shared cancellation signal is already set when `detect` is
called, it returns an empty list and inference never runs (the instrumented
flag is `false`). -/
theorem detect_cancelled (labels : Nat → String) (res : List ℚ) (θ : ℚ) :
    AudioTfl.detect true labels res θ = ([], false) := rfl

/-! ## C7: window byte count versus sample count -/

/-- Exact value of the half constant used by `pyRound`. -/
theorem mkRat_half : mkRat 1 2 = (1 : ℚ) / 2 := by norm_num [mkRat, Rat.normalize]

/-- Integral values are fixed by Python rounding. -/
theorem pyRound_intCast (n : ℤ) : pyRound ((n : ℤ) : ℚ) = n := by
  have hhalf : (0 : ℚ) < mkRat 1 2 := by rw [mkRat_half]; norm_num
  simp only [pyRound, Int.floor_intCast, sub_self]
  rw [if_pos hhalf]

/-- C7 (counterexample): `round(duration * sampleRate * 2)` is *not* twice
`round(duration * sampleRate)` for every duration and sample rate.  At
duration `1/4` s and rate `10` Hz (all involved values exact in binary
floating point as well), the window is `round(2.5) = 2` samples — Python 3
rounds half to even — while the per-cycle read is `round(5.0) = 5` bytes,
an odd byte count, not `2 × 2 = 4`. -/
theorem chunk_size_not_twice_shape :
    AudioEventMaintainer.chunk_size (mkRat 1 4) 10 = 5 ∧
    AudioEventMaintainer.shape (mkRat 1 4) 10 = 2 ∧
    AudioEventMaintainer.chunk_size (mkRat 1 4) 10 ≠
      2 * AudioEventMaintainer.shape (mkRat 1 4) 10 := by
  refine ⟨?_, ?_, ?_⟩ <;> with_unfolding_all decide

/-- C7 (amended): whenever `duration * sampleRate` is a whole number of
samples — as with the shipped constants, `0.975 s × 16000 Hz = 15600` — the
byte count `chunk_size` requested per read cycle is exactly twice the
window's sample count, so each cycle reads a whole number of 16-bit samples
matching the model's declared input length. -/
theorem chunk_twice_shape (d r : ℚ) (h : (d * r).den = 1) :
    AudioEventMaintainer.chunk_size d r = 2 * AudioEventMaintainer.shape d r := by
  obtain ⟨n, hn⟩ : ∃ n : ℤ, d * r = (n : ℚ) :=
    ⟨(d * r).num, ((Rat.den_eq_one_iff (d * r)).mp h).symm⟩
  unfold AudioEventMaintainer.chunk_size AudioEventMaintainer.shape
  rw [hn]
  have h2 : ((n : ℤ) : ℚ) * 2 = ((2 * n : ℤ) : ℚ) := by push_cast; ring
  rw [h2, pyRound_intCast, pyRound_intCast]

/-- C7 (witness): the amended statement applies to the shipped configuration,
duration `0.975` s and sample rate `16000` Hz. -/
theorem chunk_twice_shape_witness :
    (mkRat 39 40 * 16000 : ℚ).den = 1 ∧
    AudioEventMaintainer.chunk_size (mkRat 39 40) 16000 =
      2 * AudioEventMaintainer.shape (mkRat 39 40) 16000 :=
  ⟨by with_unfolding_all decide,
   chunk_twice_shape (mkRat 39 40) 16000 (by with_unfolding_all decide)⟩

/-! ## Dictionary lemmas -/

/-- Present keys answer `lookup`. -/
theorem lookup_isSome_of_mem {m : DMap} {k : String} {v : Option Entry}
    (h : (k, v) ∈ m) : (List.lookup k m).isSome := by
  induction m with
  | nil => simp at h
  | cons p t ih =>
    obtain ⟨q, w⟩ := p
    by_cases hk : k = q
    · subst hk
      simp [List.lookup_cons]
    · have hk2 : (k == q) = false := by simpa using hk
      rw [List.lookup_cons]
      rw [hk2]
      rcases List.mem_cons.mp h with h | h
      · exact absurd (congrArg Prod.fst h) hk
      · exact ih h

/-- Replacement at a present key answers `lookup` with the new value. -/
theorem lookup_map_replace (m : DMap) (k : String) (v : Option Entry)
    (h : (List.lookup k m).isSome) :
    List.lookup k (m.map (fun p => if p.1 = k then (k, v) else p)) = some v := by
  induction m with
  | nil => simp at h
  | cons p t ih =>
    obtain ⟨q, w⟩ := p
    by_cases hk : k = q
    · subst hk
      simp [List.lookup_cons]
    · have hk2 : (k == q) = false := by simpa using hk
      have hq : ¬ ((q, w).1 = k) := fun hc => hk (hc.symm)
      rw [List.map_cons, if_neg hq, List.lookup_cons, hk2]
      apply ih
      rw [List.lookup_cons, hk2] at h
      exact h

/-- Key appended at the end answers `lookup` when it was absent before. -/
theorem lookup_append_self (m : DMap) (k : String) (v : Option Entry)
    (h : List.lookup k m = none) :
    List.lookup k (m ++ [(k, v)]) = some v := by
  induction m with
  | nil => simp [List.lookup_cons]
  | cons p t ih =>
    obtain ⟨q, w⟩ := p
    rw [List.lookup_cons] at h
    rcases hk : (k == q) with _ | _
    · rw [hk] at h
      rw [List.cons_append, List.lookup_cons, hk]
      exact ih h
    · rw [hk] at h
      simp at h

/-- Python assignment makes the assigned key read back the assigned value. -/
theorem lookup_dset_self (m : DMap) (k : String) (v : Option Entry) :
    List.lookup k (dset m k v) = some v := by
  unfold dset
  rcases h : (List.lookup k m) with _ | w
  · rw [if_neg (by simp [h])]
    exact lookup_append_self m k v h
  · rw [if_pos (by simp [h])]
    exact lookup_map_replace m k v (by simp [h])

/-- Value replacement keeps the key sequence. -/
theorem map_fst_replace (m : DMap) (k : String) (v : Option Entry) :
    (m.map (fun p => if p.1 = k then (k, v) else p)).map Prod.fst = m.map Prod.fst := by
  rw [List.map_map]
  apply List.map_congr_left
  intro p _
  by_cases hp : p.1 = k
  · simp [hp, Function.comp]
  · simp [hp, Function.comp]

/-- Keys stay unique across a Python assignment. -/
theorem dset_nodup {m : DMap} (k : String) (v : Option Entry)
    (h : (m.map Prod.fst).Nodup) : ((dset m k v).map Prod.fst).Nodup := by
  unfold dset
  rcases hl : (List.lookup k m) with _ | w
  · rw [if_neg (by simp [hl])]
    rw [List.map_append]
    rw [List.nodup_append]
    refine ⟨h, by simp, ?_⟩
    intro a ha hb
    simp only [List.map_cons, List.map_nil, List.mem_singleton] at hb
    subst hb
    rcases List.mem_map.mp ha with ⟨p, hp, rfl⟩
    have hs : (List.lookup p.1 m).isSome := lookup_isSome_of_mem (by simpa using hp)
    rw [hl] at hs
    simp at hs
  · rw [if_pos (by simp [hl])]
    rw [map_fst_replace]
    exact h

/-- With unique keys, replacing the value of the key found at position `i`
is exactly a positional `set`. -/
theorem map_replace_eq_set {m : DMap} {k : String} {v w : Option Entry} {i : Nat}
    (hnd : (m.map Prod.fst).Nodup) (hi : m[i]? = some (k, w)) :
    m.map (fun p => if p.1 = k then (k, v) else p) = m.set i (k, v) := by
  obtain ⟨hlt, hget⟩ := List.getElem?_eq_some.mp hi
  apply List.ext_getElem?
  intro j
  rw [List.getElem?_map, List.getElem?_set]
  by_cases hij : i = j
  · subst hij
    rw [if_pos rfl, if_pos hlt, List.getElem?_eq_getElem hlt, hget]
    simp [Option.map_some]
  · rw [if_neg hij]
    cases hj : m[j]? with
    | none => simp
    | some q =>
      obtain ⟨hjlt, hjget⟩ := List.getElem?_eq_some.mp hj
      have hq1 : ¬ (q.1 = k) := by
        intro hqk
        apply hij
        have hli : i < (m.map Prod.fst).length := by simpa using hlt
        have hlj : j < (m.map Prod.fst).length := by simpa using hjlt
        have hkeys : (m.map Prod.fst)[i] = (m.map Prod.fst)[j] := by
          rw [List.getElem_map, List.getElem_map, hget, hjget, hqk]
        exact (List.Nodup.getElem_inj_iff hnd).mp hkeys
      simp [hq1]

/-- Preservation along an option-valued fold: any property that holds of the
start state and is kept by every successful step holds of a successful
result. -/
theorem foldl_bind_preserve {σ α : Type} (P : σ → Prop) (step : σ → α → Option σ)
    (l : List α) :
    ∀ init : Option σ, (∀ s, init = some s → P s) →
      (∀ s a t, P s → step s a = some t → P t) →
      ∀ s, l.foldl (fun acc a => acc.bind (fun st => step st a)) init = some s → P s := by
  induction l with
  | nil =>
    intro init h0 _ s hs
    exact h0 s hs
  | cons a l ih =>
    intro init h0 hstep s hs
    rw [List.foldl_cons] at hs
    refine ih (init.bind (fun st => step st a)) ?_ hstep s hs
    intro t ht
    rcases hb : init with _ | s0
    · rw [hb] at ht; simp at ht
    · rw [hb] at ht
      simp only [Option.some_bind] at ht
      exact hstep s0 a t (h0 s0 hb) ht

/-! ## Shapes of well-formed dictionary values -/

/-- Case analysis on a value satisfying `goodEntry`. -/
theorem goodEntry_cases {k : String} {v : Option Entry} (h : goodEntry k v = true) :
    v = none ∨ (∃ b, v = some (metricsEntry b)) ∨ ∃ eid t, v = some (recordEntry eid k t) := by
  cases v with
  | none => exact Or.inl rfl
  | some e =>
    obtain ⟨i0, l0, d0, a0⟩ := e
    cases i0 <;> cases l0 <;> cases d0 <;> cases a0 <;>
      simp_all [goodEntry, metricsEntry, recordEntry]

/-- Deleted slots are never stale. -/
theorem isStale_none (mnh now : ℚ) :
    AudioEventMaintainer.isStale mnh now none = false := rfl

/-- With a non-negative silence timeout, a metrics entry (no `last_detection`
key, so the guard compares `now` against itself) is never stale. -/
theorem isStale_metrics (mnh now : ℚ) (b : Bool) (h0 : 0 ≤ mnh) :
    AudioEventMaintainer.isStale mnh now (some (metricsEntry b)) = false := by
  simp only [AudioEventMaintainer.isStale, metricsEntry, Entry.truthy, Option.getD,
    Option.isSome, Bool.or_true, Bool.true_and, sub_self]
  exact decide_eq_false (not_lt.mpr h0)

/-- A record is stale exactly when its timestamp is out of the window. -/
theorem isStale_record (mnh now t : ℚ) (eid lb : String) :
    AudioEventMaintainer.isStale mnh now (some (recordEntry eid lb t)) =
      decide (mnh < now - t) := by
  simp [AudioEventMaintainer.isStale, recordEntry, Entry.truthy]

/-- Key sequence is unchanged by the expiry rewrite. -/
theorem expMap_map_fst (mnh now : ℚ) (m : DMap) :
    (AudioEventMaintainer.expMap mnh now m).map Prod.fst = m.map Prod.fst := by
  rw [AudioEventMaintainer.expMap, List.map_map]
  apply List.map_congr_left
  intro p _
  by_cases h : AudioEventMaintainer.isStale mnh now p.2 = true
  · simp [h, Function.comp]
  · simp [Bool.eq_false_iff.mpr h, Function.comp]

/-! ## Single steps of the expiry loop -/

/-- Loop body on a non-stale value: only the visit is recorded. -/
theorem expireStep_skip (mnh pc now : ℚ) (st : AudioEventMaintainer.ExpireState) (i : Nat)
    (k : String) (v : Option Entry) (h : st.map[i]? = some (k, v))
    (hskip : AudioEventMaintainer.isStale mnh now v = false) :
    AudioEventMaintainer.expireStep mnh pc now st i =
      some { st with visited := st.visited ++ [v] } := by
  unfold AudioEventMaintainer.expireStep
  rw [h]
  cases v with
  | none => rfl
  | some e =>
    rw [AudioEventMaintainer.isStale] at hskip
    rcases ht : e.truthy with _ | _
    · simp [ht]
    · rw [ht] at hskip
      simp only [Bool.true_and, decide_eq_false_iff_not] at hskip
      simp [ht, hskip]

/-- Loop body on a stale record: emit the end call with
`endTime = last_detection + post_capture` and null the record's label key. -/
theorem expireStep_fire (mnh pc now : ℚ) (st : AudioEventMaintainer.ExpireState) (i : Nat)
    (k eid lb : String) (t : ℚ)
    (h : st.map[i]? = some (k, some (recordEntry eid lb t)))
    (hst : mnh < now - t) :
    AudioEventMaintainer.expireStep mnh pc now st i =
      some ⟨dset st.map lb none, st.calls ++ [ApiCall.endEvent eid (t + pc)],
            st.visited ++ [some (recordEntry eid lb t)]⟩ := by
  simp [AudioEventMaintainer.expireStep, h, recordEntry, Entry.truthy, hst]


/-! ## Characterisation of one expiry pass -/

/-- Expiry rewrite distributes over append. -/
theorem expMap_append (mnh now : ℚ) (l1 l2 : DMap) :
    AudioEventMaintainer.expMap mnh now (l1 ++ l2) =
      AudioEventMaintainer.expMap mnh now l1 ++ AudioEventMaintainer.expMap mnh now l2 :=
  List.map_append _ _ _

/-- Expiry trace distributes over append. -/
theorem expCalls_append (mnh pc now : ℚ) (l1 l2 : DMap) :
    AudioEventMaintainer.expCalls mnh pc now (l1 ++ l2) =
      AudioEventMaintainer.expCalls mnh pc now l1 ++
        AudioEventMaintainer.expCalls mnh pc now l2 :=
  List.filterMap_append _ _ _

/-- Non-stale singleton: kept as is. -/
theorem expMap_single_skip {mnh now : ℚ} {k : String} {v : Option Entry}
    (h : AudioEventMaintainer.isStale mnh now v = false) :
    AudioEventMaintainer.expMap mnh now [(k, v)] = [(k, v)] := by
  simp [AudioEventMaintainer.expMap, h]

/-- Stale singleton: overwritten with `None`. -/
theorem expMap_single_fire {mnh now : ℚ} {k : String} {v : Option Entry}
    (h : AudioEventMaintainer.isStale mnh now v = true) :
    AudioEventMaintainer.expMap mnh now [(k, v)] = [(k, none)] := by
  simp [AudioEventMaintainer.expMap, h]

/-- Non-stale singleton emits nothing. -/
theorem expCalls_single_skip {mnh pc now : ℚ} {k : String} {v : Option Entry}
    (h : AudioEventMaintainer.isStale mnh now v = false) :
    AudioEventMaintainer.expCalls mnh pc now [(k, v)] = [] := by
  cases v with
  | none => simp [AudioEventMaintainer.expCalls]
  | some e => simp [AudioEventMaintainer.expCalls, h]

/-- Stale record singleton emits its end call. -/
theorem expCalls_single_fire {mnh pc now : ℚ} {k : String} {e : Entry}
    (h : AudioEventMaintainer.isStale mnh now (some e) = true) :
    AudioEventMaintainer.expCalls mnh pc now [(k, some e)] =
      [ApiCall.endEvent (e.id.getD "") ((e.last_detection.getD 0) + pc)] := by
  simp [AudioEventMaintainer.expCalls, h]

/-- Invariant of the expiry loop: after the first `i` positions have been
visited, the dictionary is the original with its first `i` entries rewritten,
the calls are those of the first `i` entries, and the visits are the first
`i` values. -/
theorem expire_loop (mnh pc now : ℚ) (m : DMap)
    (hnd : (m.map Prod.fst).Nodup)
    (hgood : ∀ p ∈ m, goodEntry p.1 p.2 = true) (h0 : 0 ≤ mnh) :
    ∀ i, i ≤ m.length →
      (List.range i).foldl
        (fun acc j => acc.bind (fun st => AudioEventMaintainer.expireStep mnh pc now st j))
        (some ⟨m, [], []⟩) =
      some ⟨AudioEventMaintainer.expMap mnh now (m.take i) ++ m.drop i,
            AudioEventMaintainer.expCalls mnh pc now (m.take i),
            (m.take i).map Prod.snd⟩ := by
  intro i
  induction i with
  | zero =>
    intro _
    simp [AudioEventMaintainer.expMap, AudioEventMaintainer.expCalls]
  | succ i ih =>
    intro hi
    have hilt : i < m.length := hi
    have hi1 : i ≤ m.length := Nat.le_of_lt hilt
    rw [List.range_succ, List.foldl_append, ih hi1]
    simp only [List.foldl_cons, List.foldl_nil, Option.some_bind]
    have hAlen : (AudioEventMaintainer.expMap mnh now (m.take i)).length = i := by
      rw [AudioEventMaintainer.expMap, List.length_map, List.length_take]
      exact min_eq_left hi1
    have hmi : m[i]? = some m[i] := List.getElem?_eq_getElem hilt
    have hcur : (AudioEventMaintainer.expMap mnh now (m.take i) ++ m.drop i)[i]? =
        some m[i] := by
      rw [List.getElem?_append_right (le_of_eq hAlen), hAlen]
      simpa [List.getElem?_drop] using hmi
    have htake : m.take (i + 1) = m.take i ++ [m[i]] := by
      rw [List.take_succ, hmi]
      rfl
    have hdrop : m.drop i = m[i] :: m.drop (i + 1) := List.drop_eq_getElem_cons hilt
    have hgood_i : goodEntry m[i].1 m[i].2 = true :=
      hgood m[i] (List.getElem_mem hilt)
    have hstep_skip : ∀ hsk : AudioEventMaintainer.isStale mnh now m[i].2 = false,
        some ⟨AudioEventMaintainer.expMap mnh now (m.take (i + 1)) ++ m.drop (i + 1),
              AudioEventMaintainer.expCalls mnh pc now (m.take (i + 1)),
              (m.take (i + 1)).map Prod.snd⟩ =
        (some ⟨AudioEventMaintainer.expMap mnh now (m.take i) ++ m.drop i,
               AudioEventMaintainer.expCalls mnh pc now (m.take i),
               (m.take i).map Prod.snd ++ [m[i].2]⟩ :
          Option AudioEventMaintainer.ExpireState) := by
      intro hsk
      rw [htake, expMap_append, expCalls_append, List.map_append]
      rw [expMap_single_skip hsk, expCalls_single_skip hsk]
      rw [List.append_assoc]
      simp only [List.singleton_append, List.map_cons, List.map_nil, Prod.mk.eta,
        List.append_nil]
      rw [← hdrop]
    rcases goodEntry_cases hgood_i with hv | ⟨b, hv⟩ | ⟨eid, t, hv⟩
    · rw [expireStep_skip mnh pc now _ i m[i].1 m[i].2 (by simpa using hcur)
        (by rw [hv]; exact isStale_none mnh now)]
      exact (hstep_skip (by rw [hv]; exact isStale_none mnh now)).symm
    · rw [expireStep_skip mnh pc now _ i m[i].1 m[i].2 (by simpa using hcur)
        (by rw [hv]; exact isStale_metrics mnh now b h0)]
      exact (hstep_skip (by rw [hv]; exact isStale_metrics mnh now b h0)).symm
    · by_cases hstale : mnh < now - t
      · have hs : AudioEventMaintainer.isStale mnh now
            (some (recordEntry eid m[i].1 t)) = true := by
          rw [isStale_record]
          exact decide_eq_true hstale
        rw [expireStep_fire mnh pc now _ i m[i].1 eid m[i].1 t
          (by rw [← hv]; simpa using hcur) hstale]
        have hkeys : ((AudioEventMaintainer.expMap mnh now (m.take i) ++ m.drop i).map
            Prod.fst) = m.map Prod.fst := by
          rw [List.map_append, expMap_map_fst, ← List.map_append, List.take_append_drop]
        have hmem : (m[i].1, m[i].2) ∈
            (AudioEventMaintainer.expMap mnh now (m.take i) ++ m.drop i) := by
          obtain ⟨hlt2, hget2⟩ := List.getElem?_eq_some.mp hcur
          have hm := List.getElem_mem hlt2
          rw [hget2] at hm
          simpa using hm
        have hdset : dset (AudioEventMaintainer.expMap mnh now (m.take i) ++ m.drop i)
            m[i].1 none =
            AudioEventMaintainer.expMap mnh now (m.take i) ++
              (m[i].1, none) :: m.drop (i + 1) := by
          rw [dset, if_pos (by simp [lookup_isSome_of_mem hmem])]
          rw [map_replace_eq_set (hkeys ▸ hnd) (by simpa using hcur)]
          rw [List.set_append_right i (m[i].1, none) (le_of_eq hAlen), hAlen]
          rw [hdrop]
          simp only [Nat.sub_self, List.set_cons_zero]
        have htake2 : m.take (i + 1) =
            m.take i ++ [(m[i].1, some (recordEntry eid m[i].1 t))] := by
          rw [htake]
          congr 1
          rw [← hv]
        rw [hdset, htake2, expMap_append, expCalls_append, List.map_append]
        rw [expMap_single_fire hs, expCalls_single_fire hs]
        simp [recordEntry]
      · have hs : AudioEventMaintainer.isStale mnh now m[i].2 = false := by
          rw [hv, isStale_record]
          exact decide_eq_false hstale
        rw [expireStep_skip mnh pc now _ i m[i].1 m[i].2 (by simpa using hcur) hs]
        exact (hstep_skip hs).symm

/-- One expiry pass over a well-formed dictionary: the result is exactly the
pointwise stale-rewrite of the dictionary, the trace is exactly one end call
per stale record (with `endTime = last_detection + post_capture`), and every
value — the per-camera metrics entries included — is visited.  The outcome of
the end PUT is not an argument of the model because line 212 ignores the
response: removal happens regardless of the call's success. -/
theorem expire_spec (mnh pc now : ℚ) (m : DMap) (hwf : WF m) (h0 : 0 ≤ mnh) :
    AudioEventMaintainer.expire_detections mnh pc m now =
      some ⟨AudioEventMaintainer.expMap mnh now m,
            AudioEventMaintainer.expCalls mnh pc now m,
            m.map Prod.snd⟩ := by
  obtain ⟨hnd, hgood⟩ := hwf
  have h := expire_loop mnh pc now m hnd hgood h0 m.length (le_refl _)
  rw [AudioEventMaintainer.expire_detections]
  simpa [List.take_length, List.drop_length] using h

/-- Key uniqueness survives one expiry-loop step. -/
theorem expireStep_map_nodup (mnh pc now : ℚ) (st st2 : AudioEventMaintainer.ExpireState)
    (i : Nat) (h : (st.map.map Prod.fst).Nodup)
    (hs : AudioEventMaintainer.expireStep mnh pc now st i = some st2) :
    (st2.map.map Prod.fst).Nodup := by
  unfold AudioEventMaintainer.expireStep at hs
  split at hs
  · cases hs
    exact h
  · split at hs
    · cases hs
      exact h
    · split at hs
      · split at hs
        · split at hs
          · cases hs
            exact dset_nodup _ _ h
          · cases hs
        · cases hs
          exact h
      · cases hs
        exact h

/-- Key uniqueness survives a whole expiry pass. -/
theorem expire_map_nodup (mnh pc now : ℚ) (m : DMap)
    (h : (m.map Prod.fst).Nodup) (st : AudioEventMaintainer.ExpireState)
    (hs : AudioEventMaintainer.expire_detections mnh pc m now = some st) :
    (st.map.map Prod.fst).Nodup := by
  refine foldl_bind_preserve (fun s => (s.map.map Prod.fst).Nodup)
    (fun s j => AudioEventMaintainer.expireStep mnh pc now s j) (List.range m.length)
    (some ⟨m, [], []⟩) ?_ ?_ st hs
  · intro s hsome
    cases hsome
    exact h
  · intro s a t hp ht
    exact expireStep_map_nodup mnh pc now s t a hp ht

/-- Key uniqueness survives `handle_detection`. -/
theorem handle_map_nodup (cam : String) (m : DMap) (label : String) (score now : ℚ)
    (resp : Option String) (h : (m.map Prod.fst).Nodup) :
    (((AudioEventMaintainer.handle_detection cam m label score now resp).1).map
      Prod.fst).Nodup := by
  unfold AudioEventMaintainer.handle_detection
  split <;> split
  · split
    · exact dset_nodup _ _ h
    · exact dset_nodup _ _ h
  · exact dset_nodup _ _ h
  · split
    · exact dset_nodup _ _ h
    · exact h
  · exact h

/-! ## Behaviour of handle_detection -/

/-- Debounce branch (lines 183-186): while a truthy value sits at the label
key, a detection only overwrites the `last_detection` timestamp; no call is
emitted and the create-response argument is irrelevant. -/
theorem handle_truthy (cam : String) (m : DMap) (label : String) (score now : ℚ)
    (resp : Option String) (e : Entry) (hd : dget m label = some e)
    (ht : e.truthy = true) :
    AudioEventMaintainer.handle_detection cam m label score now resp =
      (dset m label (some { e with last_detection := some now }), []) := by
  unfold AudioEventMaintainer.handle_detection
  rw [hd]
  simp [ht]

/-- Create branch on a 200 response (lines 187-199): one POST is emitted and
the fresh record, carrying the returned event id and `last_detection = now`,
is stored at the label key. -/
theorem handle_create_success (cam : String) (m : DMap) (label : String)
    (score now : ℚ) (eid : String) (hf : truthyAt m label = false) :
    AudioEventMaintainer.handle_detection cam m label score now (some eid) =
      (dset m label (some (recordEntry eid label now)), [ApiCall.create cam label]) := by
  unfold AudioEventMaintainer.handle_detection
  unfold truthyAt at hf
  cases hd : dget m label with
  | none => rfl
  | some e =>
    rw [hd] at hf
    change e.truthy = false at hf
    simp [hf]

/-- Create branch on a failed response (lines 187-193): one POST is emitted
and the dictionary is unchanged. -/
theorem handle_create_failure (cam : String) (m : DMap) (label : String)
    (score now : ℚ) (hf : truthyAt m label = false) :
    AudioEventMaintainer.handle_detection cam m label score now none =
      (m, [ApiCall.create cam label]) := by
  unfold AudioEventMaintainer.handle_detection
  unfold truthyAt at hf
  cases hd : dget m label with
  | none => rfl
  | some e =>
    rw [hd] at hf
    change e.truthy = false at hf
    simp [hf]

/-- Reading a key after the expiry rewrite: stale values read back `None`,
others are untouched. -/
theorem lookup_expMap (mnh now : ℚ) (m : DMap) (hnd : (m.map Prod.fst).Nodup)
    (k : String) (v : Option Entry) (hmem : (k, v) ∈ m) :
    List.lookup k (AudioEventMaintainer.expMap mnh now m) =
      some (if AudioEventMaintainer.isStale mnh now v = true then none else v) := by
  induction m with
  | nil => simp at hmem
  | cons p t ih =>
    obtain ⟨q, w⟩ := p
    have hnd2 : q ∉ t.map Prod.fst ∧ (t.map Prod.fst).Nodup := by
      simpa [List.nodup_cons] using hnd
    simp only [AudioEventMaintainer.expMap, List.map_cons]
    by_cases hk : k = q
    · subst hk
      have hvw : v = w := by
        rcases List.mem_cons.mp hmem with h | h
        · exact (Prod.mk.injEq _ _ _ _).mp h |>.2
        · exfalso
          exact hnd2.1 (List.mem_map.mpr ⟨(k, v), h, rfl⟩)
      subst hvw
      by_cases hs : AudioEventMaintainer.isStale mnh now v = true
      · simp [hs, List.lookup_cons]
      · simp [hs, List.lookup_cons]
    · have hk2 : (k == q) = false := by simpa using hk
      have hmem2 : (k, v) ∈ t := by
        rcases List.mem_cons.mp hmem with h | h
        · exact absurd ((Prod.mk.injEq _ _ _ _).mp h).1 hk
        · exact h
      by_cases hs : AudioEventMaintainer.isStale mnh now w = true
      · simp only [hs, if_true, List.lookup_cons, hk2]
        exact ih hnd2.2 hmem2
      · simp only [hs, Bool.false_eq_true, if_false, List.lookup_cons, hk2]
        exact ih hnd2.2 hmem2

/-! ## C3: one expiry pass -/

/-- C3: over a well-formed dictionary and a non-negative silence timeout, one
expiry pass (1) succeeds and is exactly characterised: its resulting
dictionary is the pointwise rewrite `expMap` that nulls each stale entry at
its own key, and its trace is exactly `expCalls` — one end call per stale
record, in dictionary order, whose `endTime` is that record's
`last_detection + post_capture` and never the current clock `now`; the model
takes no input for the end call's response because the source ignores it, so
removal is unconditional; (2) every stale record's key reads back `None`
afterwards (the record is gone); (3) every record seen within `maxNotHeard`
is left exactly as it was and (being non-stale) contributes nothing to
`expCalls`. -/
theorem expire_stale_records (mnh pc now : ℚ) (m : DMap) (hwf : WF m) (h0 : 0 ≤ mnh) :
    AudioEventMaintainer.expire_detections mnh pc m now =
      some ⟨AudioEventMaintainer.expMap mnh now m,
            AudioEventMaintainer.expCalls mnh pc now m,
            m.map Prod.snd⟩ ∧
    (∀ k eid t, (k, some (recordEntry eid k t)) ∈ m → mnh < now - t →
      List.lookup k (AudioEventMaintainer.expMap mnh now m) = some none) ∧
    (∀ k eid t, (k, some (recordEntry eid k t)) ∈ m → ¬ (mnh < now - t) →
      List.lookup k (AudioEventMaintainer.expMap mnh now m) =
        some (some (recordEntry eid k t))) := by
  refine ⟨expire_spec mnh pc now m hwf h0, ?_, ?_⟩
  · intro k eid t hmem hst
    rw [lookup_expMap mnh now m hwf.1 k _ hmem]
    rw [isStale_record]
    simp [decide_eq_true hst]
  · intro k eid t hmem hst
    rw [lookup_expMap mnh now m hwf.1 k _ hmem]
    rw [isStale_record]
    simp [decide_eq_false hst]

/-- C3 (witness): camera `"front"` with a metrics entry, a `"bark"` record
last heard at `t = 0` and a `"speech"` record last heard at `t = 90`; with
`maxNotHeard = 30`, `postCapture = 5` at `now = 100` the pass fires exactly
one end call, `endEvent "e1" 5`, nulls only `"bark"`, and keeps `"speech"`. -/
theorem expire_stale_records_witness :
    WF exM ∧ (0 : ℚ) ≤ 30 ∧
    AudioEventMaintainer.expire_detections 30 5 exM 100 =
      some ⟨AudioEventMaintainer.expMap 30 100 exM,
            AudioEventMaintainer.expCalls 30 5 100 exM,
            exM.map Prod.snd⟩ ∧
    AudioEventMaintainer.expCalls 30 5 100 exM = [ApiCall.endEvent "e1" 5] ∧
    AudioEventMaintainer.expMap 30 100 exM =
      [("front", some (metricsEntry true)), ("bark", none),
       ("speech", some (recordEntry "e2" "speech" 90))] :=
  ⟨by with_unfolding_all decide, by norm_num,
   (expire_stale_records 30 5 100 exM (by with_unfolding_all decide) (by norm_num)).1,
   by with_unfolding_all decide, by with_unfolding_all decide⟩

/-! ## C6: failed create -/

/-- C6: when no active record sits at the label key and the create POST fails
(non-200), the dictionary is left exactly as it was — no transient state is
persisted — so the next detection of the same label runs the create branch
again: a second failure emits the same lone POST again, and a later success
stores the fresh record. -/
theorem create_failure_drops (cam : String) (m : DMap) (label : String)
    (score now score2 now2 : ℚ) (eid : String) (hf : truthyAt m label = false) :
    AudioEventMaintainer.handle_detection cam m label score now none =
      (m, [ApiCall.create cam label]) ∧
    AudioEventMaintainer.handle_detection cam
        ((AudioEventMaintainer.handle_detection cam m label score now none).1)
        label score2 now2 none =
      (m, [ApiCall.create cam label]) ∧
    AudioEventMaintainer.handle_detection cam
        ((AudioEventMaintainer.handle_detection cam m label score now none).1)
        label score2 now2 (some eid) =
      (dset m label (some (recordEntry eid label now2)), [ApiCall.create cam label]) := by
  have h1 := handle_create_failure cam m label score now hf
  refine ⟨h1, ?_, ?_⟩
  · rw [h1]
    exact handle_create_failure cam m label score2 now2 hf
  · rw [h1]
    exact handle_create_success cam m label score2 now2 eid hf

/-- C6 (witness): on the fresh camera dictionary, a failed create for
`"bark"` leaves the dictionary unchanged and the retry path is concrete. -/
theorem create_failure_drops_witness :
    truthyAt (initMap "front" true) "bark" = false ∧
    AudioEventMaintainer.handle_detection "front" (initMap "front" true) "bark" 0 0 none =
      (initMap "front" true, [ApiCall.create "front" "bark"]) :=
  ⟨by with_unfolding_all decide,
   (create_failure_drops "front" (initMap "front" true) "bark" 0 0 0 1 "e9"
     (by with_unfolding_all decide)).1⟩

/-! ## C5: at most one record per label, fresh create after expiry -/

/-- C5: in any state one camera's tracker can reach — from construction,
through any interleaving of handled detections and expiry passes — the
dictionary's keys are unique, so each label holds at most one active event
record; and whenever a label's slot is empty (never created, or nulled by
expiry), the next detection with a 200 response runs a fresh create: it emits
the POST and stores a brand-new record carrying the event id just returned,
rather than extending any previous event. -/
theorem tracker_invariant (cam : String) (b : Bool) (mnh pc : ℚ) (m : DMap)
    (h : Reachable cam b mnh pc m) :
    ((m.map Prod.fst).Nodup) ∧
    (∀ label eid score now, dget m label = none →
      AudioEventMaintainer.handle_detection cam m label score now (some eid) =
        (dset m label (some (recordEntry eid label now)), [ApiCall.create cam label])) := by
  constructor
  · induction h with
    | init => simp [initMap]
    | handle m label score now resp hr ih =>
      exact handle_map_nodup cam m label score now resp ih
    | expire m now st hr he ih =>
      exact expire_map_nodup mnh pc now m ih st he
  · intro label eid score now hd
    apply handle_create_success
    unfold truthyAt
    rw [hd]

/-- C5 (witness): the construction state is reachable; its keys are unique
and a detection of the unlistened-at key `"bark"` runs the fresh create. -/
theorem tracker_invariant_witness :
    ((initMap "front" true).map Prod.fst).Nodup ∧
    AudioEventMaintainer.handle_detection "front" (initMap "front" true) "bark" 0 0
        (some "e7") =
      (dset (initMap "front" true) "bark" (some (recordEntry "e7" "bark" 0)),
       [ApiCall.create "front" "bark"]) :=
  ⟨(tracker_invariant "front" true 30 5 _ Reachable.init).1,
   (tracker_invariant "front" true 30 5 _ Reachable.init).2 "bark" "e7" 0 0
     (by with_unfolding_all decide)⟩

/-! ## C4: debounce -/

/-- Construction-state dictionary is well formed. -/
theorem initMap_wf (cam : String) (b : Bool) : WF (initMap cam b) := by
  constructor
  · simp [initMap]
  · intro p hp
    simp only [initMap, List.mem_singleton] at hp
    subst hp
    simp [goodEntry, metricsEntry]

/-- Expiry pass over the construction state: nothing to do. -/
theorem expire_initMap (mnh pc now : ℚ) (cam : String) (b : Bool) (h0 : 0 ≤ mnh) :
    AudioEventMaintainer.expire_detections mnh pc (initMap cam b) now =
      some ⟨initMap cam b, [], [some (metricsEntry b)]⟩ := by
  rw [expire_spec mnh pc now (initMap cam b) (initMap_wf cam b) h0]
  rw [initMap]
  rw [expMap_single_skip (isStale_metrics mnh now b h0)]
  rw [expCalls_single_skip (isStale_metrics mnh now b h0)]
  rfl

/-- Camera entry plus one active record: well formed when the label is not
the camera name. -/
theorem pair_wf (cam label eid : String) (b : Bool) (tp : ℚ) (hlc : label ≠ cam) :
    WF [(cam, some (metricsEntry b)), (label, some (recordEntry eid label tp))] := by
  constructor
  · simp [List.nodup_cons]
    exact fun hc => hlc hc.symm
  · intro p hp
    simp only [List.mem_cons, List.mem_singleton, List.not_mem_nil, or_false] at hp
    rcases hp with rfl | rfl
    · simp [goodEntry, metricsEntry]
    · simp [goodEntry, recordEntry]

/-- Expiry pass over camera entry plus one in-window record: nothing fires. -/
theorem expire_pair (mnh pc now : ℚ) (cam label eid : String) (b : Bool) (tp : ℚ)
    (h0 : 0 ≤ mnh) (hlc : label ≠ cam) (hfresh : ¬ (mnh < now - tp)) :
    AudioEventMaintainer.expire_detections mnh pc
        [(cam, some (metricsEntry b)), (label, some (recordEntry eid label tp))] now =
      some ⟨[(cam, some (metricsEntry b)), (label, some (recordEntry eid label tp))], [],
            [some (metricsEntry b), some (recordEntry eid label tp)]⟩ := by
  rw [expire_spec mnh pc now _ (pair_wf cam label eid b tp hlc) h0]
  have hsm := isStale_metrics mnh now b h0
  have hsr : AudioEventMaintainer.isStale mnh now (some (recordEntry eid label tp)) =
      false := by
    rw [isStale_record]
    exact decide_eq_false hfresh
  simp [AudioEventMaintainer.expMap, AudioEventMaintainer.expCalls, hsm, hsr]

/-- First detection from the construction state: create and store. -/
theorem handle_initMap (cam label eid : String) (b : Bool) (score t : ℚ)
    (hlc : label ≠ cam) :
    AudioEventMaintainer.handle_detection cam (initMap cam b) label score t (some eid) =
      ([(cam, some (metricsEntry b)), (label, some (recordEntry eid label t))],
       [ApiCall.create cam label]) := by
  have hbeq : (label == cam) = false := by simpa using hlc
  rw [handle_create_success cam _ label score t eid
    (by simp [truthyAt, dget, initMap, List.lookup_cons, hbeq])]
  rw [dset, if_neg (by simp [initMap, List.lookup_cons, hbeq])]
  rfl

/-- Later detection of the same label: debounce, timestamp-only overwrite. -/
theorem handle_pair (cam label eid : String) (b : Bool) (tp score t : ℚ)
    (hlc : label ≠ cam) (resp : Option String) :
    AudioEventMaintainer.handle_detection cam
        [(cam, some (metricsEntry b)), (label, some (recordEntry eid label tp))]
        label score t resp =
      ([(cam, some (metricsEntry b)), (label, some (recordEntry eid label t))], []) := by
  have hbeq : (label == cam) = false := by simpa using hlc
  rw [handle_truthy cam _ label score t resp (recordEntry eid label tp)
    (by simp [dget, List.lookup_cons, hbeq]) (by simp [recordEntry, Entry.truthy])]
  rw [dset, if_pos (by simp [List.lookup_cons, hbeq])]
  have hne : ¬ (cam = label) := fun hc => hlc hc.symm
  simp [hne, recordEntry]

/-- One window with the camera's fresh dictionary: the detection creates. -/
theorem seqStep_init (cam label eid : String) (b : Bool) (mnh pc t : ℚ)
    (acc : List ApiCall) (hlc : label ≠ cam) (h0 : 0 ≤ mnh) :
    seqStep cam label eid mnh pc (some (initMap cam b, acc)) t =
      some ([(cam, some (metricsEntry b)), (label, some (recordEntry eid label t))],
            acc ++ [ApiCall.create cam label]) := by
  rw [seqStep]
  simp only [Option.some_bind, expire_initMap mnh pc t cam b h0,
    handle_initMap cam label eid b 0 t hlc,
    expire_pair mnh pc t cam label eid b t h0 hlc (by simp [not_lt.mpr h0]),
    List.append_nil]

/-- One window while the record is in its silence window: debounce only. -/
theorem seqStep_pair (cam label eid : String) (b : Bool) (mnh pc tp t : ℚ)
    (acc : List ApiCall) (hlc : label ≠ cam) (h0 : 0 ≤ mnh)
    (hfresh : ¬ (mnh < t - tp)) :
    seqStep cam label eid mnh pc
        (some ([(cam, some (metricsEntry b)), (label, some (recordEntry eid label tp))],
               acc)) t =
      some ([(cam, some (metricsEntry b)), (label, some (recordEntry eid label t))],
            acc) := by
  rw [seqStep]
  simp only [Option.some_bind, expire_pair mnh pc t cam label eid b tp h0 hlc hfresh,
    handle_pair cam label eid b tp 0 t hlc (some eid),
    expire_pair mnh pc t cam label eid b t h0 hlc (by simp [not_lt.mpr h0]),
    List.append_nil]

/-- Tail of the debounce scenario: while each next detection stays within
`maxNotHeard` of the previous one, every cycle is a timestamp-only update. -/
theorem seq_loop (cam label eid : String) (b : Bool) (mnh pc : ℚ)
    (hlc : label ≠ cam) (h0 : 0 ≤ mnh) :
    ∀ (ts : List ℚ) (tp : ℚ),
      List.Chain (fun a c => a ≤ c ∧ c - a ≤ mnh) tp ts →
      List.foldl (seqStep cam label eid mnh pc)
        (some ([(cam, some (metricsEntry b)), (label, some (recordEntry eid label tp))],
               [ApiCall.create cam label]))
        ts =
      some ([(cam, some (metricsEntry b)),
             (label, some (recordEntry eid label (ts.getLastD tp)))],
            [ApiCall.create cam label]) := by
  intro ts
  induction ts with
  | nil =>
    intro tp _
    rfl
  | cons t ts ih =>
    intro tp hch
    rcases hch with _ | ⟨⟨h1, h2⟩, hch2⟩
    rw [List.foldl_cons,
      seqStep_pair cam label eid b mnh pc tp t _ hlc h0 (not_lt.mpr (by linarith))]
    rw [List.getLastD_cons]
    exact ih t hch2

/-- C4: starting from the camera's construction state, a run of detections of
one listened label — windows processed exactly as `detect_audio` does,
`handle_detection` then `expire_detections`, with draining windows in
between — in which each detection arrives within `maxNotHeard` of the
previous one produces exactly one create POST (on the first detection) and
no end call at all, and every later detection only overwrites the record's
`last_detection` timestamp, which finally reads the last arrival time. -/
theorem debounce_single_create (cam label eid : String) (b : Bool) (mnh pc : ℚ)
    (t0 : ℚ) (ts : List ℚ) (hlc : label ≠ cam) (h0 : 0 ≤ mnh)
    (hch : List.Chain (fun a c => a ≤ c ∧ c - a ≤ mnh) t0 ts) :
    detectionSequence cam label eid mnh pc (initMap cam b) (t0 :: ts) =
      some ([(cam, some (metricsEntry b)),
             (label, some (recordEntry eid label (ts.getLastD t0)))],
            [ApiCall.create cam label]) := by
  rw [detectionSequence, List.foldl_cons,
    seqStep_init cam label eid b mnh pc t0 [] hlc h0]
  rw [List.nil_append]
  exact seq_loop cam label eid b mnh pc hlc h0 ts t0 hch

/-- C4 (witness): camera `"front"`, label `"bark"`, detections at `t = 0` and
`t = 10` with `maxNotHeard = 30`: one create call, no end call, final
timestamp `10`. -/
theorem debounce_single_create_witness :
    ("bark" : String) ≠ "front" ∧ (0 : ℚ) ≤ 30 ∧
    List.Chain (fun a c : ℚ => a ≤ c ∧ c - a ≤ 30) 0 [10] ∧
    detectionSequence "front" "bark" "e1" 30 5 (initMap "front" true) [0, 10] =
      some ([("front", some (metricsEntry true)),
             ("bark", some (recordEntry "e1" "bark" 10))],
            [ApiCall.create "front" "bark"]) :=
  ⟨by with_unfolding_all decide, by norm_num,
   List.Chain.cons (by norm_num) List.Chain.nil,
   debounce_single_create "front" "bark" "e1" true 30 5 0 [10]
     (by with_unfolding_all decide) (by norm_num)
     (List.Chain.cons (by norm_num) List.Chain.nil)⟩

/-! ## C9: the detections dictionary aliases feature_metrics -/

/-- C9: line 151 (`self.detections = feature_metrics`) makes the tracker's
label-to-record dictionary the very same object as the shared
`feature_metrics` structure received at construction: (1) the two attributes
denote one underlying map for every worker; (2) a record stored under a label
key by `handle_detection` through the detections attribute reads back
immediately through `feature_metrics` at that key, and running the update
through either attribute is the same operation; (3) an expiry pass iterates
over every value of the shared map — the per-camera `feature_metrics`
entries, keyed by camera name, included — as the instrumented `visited`
trace, which equals the map's full value list, shows. -/
theorem detections_alias_feature_metrics :
    (∀ w : Maintainer, w.detections = w.feature_metrics) ∧
    (∀ (w : Maintainer) (label : String) (score now : ℚ) (eid : String),
      truthyAt w.detections label = false →
      List.lookup label
          ((AudioEventMaintainer.handle_detection w.camera w.detections label score now
            (some eid)).1) =
        some (some (recordEntry eid label now)) ∧
      (AudioEventMaintainer.handle_detection w.camera w.detections label score now
          (some eid)).1 =
        (AudioEventMaintainer.handle_detection w.camera w.feature_metrics label score now
          (some eid)).1) ∧
    (∀ (mnh pc now : ℚ) (m : DMap) (st : AudioEventMaintainer.ExpireState),
      WF m → 0 ≤ mnh →
      AudioEventMaintainer.expire_detections mnh pc m now = some st →
      st.visited = m.map Prod.snd) := by
  refine ⟨fun w => rfl, ?_, ?_⟩
  · intro w label score now eid hf
    constructor
    · rw [handle_create_success w.camera w.detections label score now eid hf]
      exact lookup_dset_self _ _ _
    · rfl
  · intro mnh pc now m st hwf h0 he
    rw [expire_spec mnh pc now m hwf h0] at he
    cases he
    rfl

/-- C9 (witness): on the example worker, a stored `"bark"` record is read
back through `feature_metrics`, and on the example dictionary the expiry
pass visits all three values — the camera metrics entry included. -/
theorem detections_alias_feature_metrics_witness :
    wEx.detections = wEx.feature_metrics ∧
    truthyAt wEx.detections "bark" = false ∧
    List.lookup "bark"
        ((AudioEventMaintainer.handle_detection wEx.camera wEx.detections "bark" 0 0
          (some "e9")).1) = some (some (recordEntry "e9" "bark" 0)) ∧
    (⟨AudioEventMaintainer.expMap 30 100 exM, AudioEventMaintainer.expCalls 30 5 100 exM,
      exM.map Prod.snd⟩ : AudioEventMaintainer.ExpireState).visited = exM.map Prod.snd :=
  ⟨detections_alias_feature_metrics.1 wEx,
   by with_unfolding_all decide,
   (detections_alias_feature_metrics.2.1 wEx "bark" 0 0 "e9"
     (by with_unfolding_all decide)).1,
   detections_alias_feature_metrics.2.2 30 5 100 exM _
     (by with_unfolding_all decide) (by norm_num)
     (by with_unfolding_all decide)⟩

/-! ## C10: the runtime disable flag -/

/-- C10: when the camera's runtime `audio_enabled` flag reads false,
`detect_audio` returns at once: inference does not run (the instrumented
flag is `false`), no create or end call is emitted, and the expiry pass is
skipped, so the shared dictionary — stale active records included — is
returned untouched. -/
theorem detect_audio_disabled (cam : String) (listen : List String) (mnh pc : ℚ)
    (stop : Bool) (labels : Nat → String) (m : DMap) (res : List ℚ) (now : ℚ)
    (respFor : String → Option String) (e : Entry)
    (hl : List.lookup cam m = some (some e)) (he : e.audio_enabled = some false) :
    AudioEventMaintainer.detect_audio cam listen mnh pc stop labels m res now respFor =
      (some (m, []), false) := by
  unfold AudioEventMaintainer.detect_audio
  simp only [hl, he]

/-- C10 (witness): camera `"front"` disabled with a `"bark"` record stale for
far longer than `maxNotHeard = 30`; the cycle at `now = 1000` changes
nothing, runs no inference and emits no call. -/
theorem detect_audio_disabled_witness :
    List.lookup "front" exM10 = some (some (metricsEntry false)) ∧
    (metricsEntry false).audio_enabled = some false ∧
    AudioEventMaintainer.detect_audio "front" ["bark"] 30 5 false exLabels exM10 exRes
        1000 (fun _ => none) = (some (exM10, []), false) :=
  ⟨by with_unfolding_all decide, rfl,
   detect_audio_disabled "front" ["bark"] 30 5 false exLabels exM10 exRes 1000
     (fun _ => none) (metricsEntry false) (by with_unfolding_all decide) rfl⟩

/-- C2 (witness): the spec scenario — threshold `0.8` on raw scores
`[0.95, 0.82, 0.81, 0.3, 0, ...]` — instantiates the cut characterisation,
and the output is exactly the first three detections, in order. -/
theorem detect_threshold_cut_witness :
    (AudioTfl.detect false exLabels exRes2 (mkRat 4 5)).1 =
      ((AudioTfl.detect_raw exRes2).map (AudioTfl.mkDet exLabels)).take
        ((AudioTfl.detect false exLabels exRes2 (mkRat 4 5)).1).length ∧
    ((AudioTfl.detect false exLabels exRes2 (mkRat 4 5)).1).length = 3 :=
  ⟨(detect_threshold_cut exLabels exRes2 (mkRat 4 5)).1, by with_unfolding_all decide⟩

end Frigate
